import Mathlib

/-!
Verification of the action-signing pipeline of the hyperliquid ts-examples
repository: the numeric wire codec (floatToWire), the canonical action
encoder (orderTypeToWire, orderRequestToOrderWire), the action hasher
(actionHash / hashAction, addressToBytes, nonceToBytes), the phantom-agent
signer payload (constructPhantomAgent, signL1Action) and the client
identifier (Cloid), together with the signature normalizer (splitSig).

JavaScript numbers are modelled as exact rationals (ℚ), byte buffers as
`List ℕ` with entries below 256, and JavaScript strings as `List Char`.
Fallible code returns `Except String`.  The external collaborators that the
source imports from npm (the keccak256 hash and the MessagePack encoder)
are modelled executably from their public specifications, as noted on their
definitions; everything else is translated directly from the source files.
-/

/-! ### Byte-level helpers -/

/-- Big-endian base-256 rendering of `n` on exactly `k` bytes (the value is
taken modulo `256 ^ k`, mirroring fixed-width machine writes). -/
def beBytes : ℕ → ℕ → List ℕ
  | 0, _ => []
  | k + 1, n => beBytes k (n / 256) ++ [n % 256]

/-- Value of a big-endian byte list. -/
def beValue (l : List ℕ) : ℕ :=
  l.foldl (fun acc b => acc * 256 + b) 0

/-- Concatenation of a list of byte lists. -/
def listFlat (l : List (List ℕ)) : List ℕ :=
  l.foldr (fun a b => a ++ b) []

/-! ### Keccak-256

Modelled from the spec: the repository applies "a fixed cryptographic hash
function" (spec §4.3/§6), namely keccak256 imported from the external
`ethers` / `viem` packages, which is not part of `src/`.  The definition
below is the standard Keccak-f[1600] permutation with rate 1088 and the
original 0x01 multi-rate padding, producing a 32-byte digest, implemented
over `ℕ` with explicit reduction modulo `2 ^ 64`. -/

/-- Bitwise exclusive or on 64-bit lanes. -/
def xor64 (a b : ℕ) : ℕ := a ^^^ b

/-- Bitwise and on 64-bit lanes. -/
def and64 (a b : ℕ) : ℕ := a &&& b

/-- Bitwise complement on a 64-bit lane. -/
def not64 (a : ℕ) : ℕ := a ^^^ (2 ^ 64 - 1)

/-- Left rotation of a 64-bit lane by `k` positions (`k < 64`). -/
def rotl64 (a k : ℕ) : ℕ :=
  (a % 2 ^ (64 - k)) * 2 ^ k + a / 2 ^ (64 - k)

/-- One step of the degree-8 LFSR (polynomial x^8 + x^6 + x^5 + x^4 + 1)
that generates the Keccak round-constant bits. -/
def keccakLfsr (r : ℕ) : ℕ :=
  (r * 2 ^^^ r / 128 * 0x71) % 256

/-- Bit `t` of the Keccak round-constant bit sequence. -/
def keccakRcBit (t : ℕ) : ℕ :=
  keccakLfsr^[t] 1 &&& 1

/-- Keccak round constants: round `i` collects bits `7 i .. 7 i + 6` of the
LFSR stream at bit positions `2 ^ j - 1` of the lane. -/
def keccakRC : List ℕ :=
  (List.range 24).map fun i =>
    (List.range 7).foldl (fun acc j => acc + keccakRcBit (7 * i + j) * 2 ^ (2 ^ j - 1)) 0

/-- The rho rotation offsets with the pi coordinate walk: starting from
lane (1, 0), step `t` assigns offset `(t + 1) (t + 2) / 2 mod 64` and moves
to `(y, (2 x + 3 y) mod 5)`; lane (0, 0) keeps offset 0.  Pairs are keyed
by the flat state index `x + 5 y`. -/
def keccakRotPairs : List (ℕ × ℕ) :=
  ((List.range 24).foldl
    (fun acc t =>
      ((acc.1.2, (2 * acc.1.1 + 3 * acc.1.2) % 5),
        (acc.1.1 + 5 * acc.1.2, (t + 1) * (t + 2) / 2 % 64) :: acc.2))
    ((1, 0), [])).2

/-- Rotation offset of the lane at flat state index `j`. -/
def keccakRotAt (j : ℕ) : ℕ :=
  (keccakRotPairs.lookup j).getD 0

/-- Theta step of the Keccak round function. -/
def keccakTheta (st : List ℕ) : List ℕ :=
  let c := (List.range 5).map fun x =>
    xor64 (xor64 (xor64 (xor64 (st.getD x 0) (st.getD (x + 5) 0)) (st.getD (x + 10) 0))
      (st.getD (x + 15) 0)) (st.getD (x + 20) 0)
  let d := (List.range 5).map fun x =>
    xor64 (c.getD ((x + 4) % 5) 0) (rotl64 (c.getD ((x + 1) % 5) 0) 1)
  (List.range 25).map fun i => xor64 (st.getD i 0) (d.getD (i % 5) 0)

/-- Combined rho and pi steps: the lane written at `(x, y)` is the rotated
lane read from `((x + 3 * y) % 5, x)`. -/
def keccakRhoPi (st : List ℕ) : List ℕ :=
  (List.range 25).map fun i =>
    let x := i % 5
    let y := i / 5
    let j := (x + 3 * y) % 5 + 5 * x
    rotl64 (st.getD j 0) (keccakRotAt j)

/-- Chi step of the Keccak round function. -/
def keccakChi (st : List ℕ) : List ℕ :=
  (List.range 25).map fun i =>
    let x := i % 5
    let y := i / 5
    xor64 (st.getD i 0)
      (and64 (not64 (st.getD ((x + 1) % 5 + 5 * y) 0)) (st.getD ((x + 2) % 5 + 5 * y) 0))

/-- Iota step: mix the round constant into lane 0. -/
def keccakIota (rc : ℕ) (st : List ℕ) : List ℕ :=
  xor64 (st.getD 0 0) rc :: st.tail

/-- The full 24-round Keccak-f[1600] permutation. -/
def keccakF (st : List ℕ) : List ℕ :=
  keccakRC.foldl (fun s rc => keccakIota rc (keccakChi (keccakRhoPi (keccakTheta s)))) st

/-- Original Keccak multi-rate padding for rate 136 bytes: append 0x01, zero
fill, and set the top bit of the final byte of the block. -/
def padKeccak (msg : List ℕ) : List ℕ :=
  let padLen := 136 - msg.length % 136
  if padLen = 1 then msg ++ [0x81]
  else msg ++ [0x01] ++ List.replicate (padLen - 2) 0 ++ [0x80]

/-- Read the little-endian 64-bit lane starting at byte offset `8 * i`. -/
def laneAt (block : List ℕ) (i : ℕ) : ℕ :=
  (List.range 8).foldr (fun j acc => acc * 256 + block.getD (8 * i + j) 0) 0

/-- Absorb one 136-byte block into the sponge state. -/
def absorbBlock (st block : List ℕ) : List ℕ :=
  (List.range 25).map fun i => if i < 17 then xor64 (st.getD i 0) (laneAt block i) else st.getD i 0

/-- Split a padded message into 136-byte blocks (fuel-driven, structurally
recursive so that the kernel can evaluate it). -/
def chunks136 : ℕ → List ℕ → List (List ℕ)
  | 0, _ => []
  | _, [] => []
  | fuel + 1, l => l.take 136 :: chunks136 fuel (l.drop 136)

/-- Absorb a list of blocks, permuting after each. -/
def absorbAll (st : List ℕ) : List (List ℕ) → List ℕ
  | [] => st
  | b :: bs => absorbAll (keccakF (absorbBlock st b)) bs

/-- Keccak-256: pad, absorb, and squeeze the first 32 bytes of the state
(little-endian within each lane). -/
def keccak256 (msg : List ℕ) : List ℕ :=
  let padded := padKeccak msg
  let st := absorbAll (List.replicate 25 0) (chunks136 padded.length padded)
  (List.range 32).map fun i => st.getD (i / 8) 0 / 2 ^ (8 * (i % 8)) % 256

/-! ### Decimal digit strings

Fuel-driven (hence kernel-evaluable) little-endian digit extraction in an
arbitrary base, linked below to Mathlib's `Nat.digits`. -/

/-- Little-endian digits of `n` in base `b` (`b ≥ 2`), computed with fuel. -/
def digitsAux (b : ℕ) : ℕ → ℕ → List ℕ
  | _, 0 => []
  | 0, _ => []
  | fuel + 1, n + 1 => (n + 1) % b :: digitsAux b fuel ((n + 1) / b)

/-- Little-endian digits of `n` in base `b`; `natDigits b 0 = []`. -/
def natDigits (b n : ℕ) : List ℕ := digitsAux b n n

/-- Split a little-endian digit list into its count of low-order zeros and
the remaining significant digits. -/
def stripZeros : List ℕ → ℕ × List ℕ
  | [] => (0, [])
  | d :: ds => if d = 0 then ((stripZeros ds).1 + 1, (stripZeros ds).2) else (0, d :: ds)

/-- Character for a single decimal digit. -/
def digitChar (d : ℕ) : Char := Char.ofNat (48 + d)

/-- Character for a single hexadecimal digit, lowercase (as produced by
JavaScript `toString(16)`). -/
def hexDigitChar (d : ℕ) : Char :=
  if d < 10 then Char.ofNat (48 + d) else Char.ofNat (87 + d)

/-- Big-endian decimal character rendering of a natural number, mirroring
JavaScript `String(n)`. -/
def natChars (n : ℕ) : List Char :=
  if n = 0 then ['0'] else ((natDigits 10 n).reverse).map digitChar

/-- Big-endian lowercase hexadecimal rendering of a natural number,
mirroring JavaScript `n.toString(16)`. -/
def natHexChars (n : ℕ) : List Char :=
  if n = 0 then ['0'] else ((natDigits 16 n).reverse).map hexDigitChar

/-- Numeric value of a hexadecimal character, `none` when the character is
not a hexadecimal digit.  Both cases are accepted, as in Node's hex codec. -/
def hexVal (c : Char) : Option ℕ :=
  if '0' ≤ c ∧ c ≤ '9' then some (c.toNat - 48)
  else if 'a' ≤ c ∧ c ≤ 'f' then some (c.toNat - 87)
  else if 'A' ≤ c ∧ c ≤ 'F' then some (c.toNat - 55)
  else none

/-- Whether a character is a hexadecimal digit. -/
def isHexDigit (c : Char) : Bool := (hexVal c).isSome

/-- Node `Buffer.from(s, hex)` semantics: decode two characters at a time,
stopping (and silently discarding the rest) at the first character pair that
is not valid hexadecimal, including a lone trailing character. -/
def hexPairs : List Char → List ℕ
  | c1 :: c2 :: rest =>
    match hexVal c1, hexVal c2 with
    | some h, some l => (16 * h + l) :: hexPairs rest
    | _, _ => []
  | _ => []

/-- Two-character lowercase hexadecimal rendering of one byte. -/
def byteHex (b : ℕ) : List Char := [hexDigitChar (b / 16), hexDigitChar (b % 16)]

/-- Lowercase hexadecimal rendering of a byte list. -/
def bytesHex (bs : List ℕ) : List Char := (bs.map byteHex).flatten

/-! ### MessagePack encoding

Modelled from the spec: the source serializes actions with `encode` from the
external `@msgpack/msgpack` package — per spec §4.2/§6 "a deterministic,
order-preserving binary map/array encoding".  The closed value type below
covers the action shapes the repository builds (nil, booleans, integers,
strings, arrays and insertion-ordered string-keyed maps), and the encoder
follows the MessagePack format specification. -/

mutual
/-- A MessagePack-serializable value; maps are insertion-ordered key/value
lists, matching JavaScript object key order. -/
inductive MsgVal where
  | nil
  | bool (b : Bool)
  | int (n : ℤ)
  | str (s : String)
  | arr (items : MsgList)
  | map (pairs : MsgPairs)

/-- A list of MessagePack values (spelled out so that mutual structural
recursion is available). -/
inductive MsgList where
  | nil
  | cons (v : MsgVal) (tl : MsgList)

/-- An insertion-ordered list of string-keyed MessagePack map entries. -/
inductive MsgPairs where
  | nil
  | cons (k : String) (v : MsgVal) (tl : MsgPairs)
end

/-- Number of elements of a `MsgList`. -/
def MsgList.len : MsgList → ℕ
  | .nil => 0
  | .cons _ tl => tl.len + 1

/-- Number of entries of a `MsgPairs`. -/
def MsgPairs.len : MsgPairs → ℕ
  | .nil => 0
  | .cons _ _ tl => tl.len + 1

/-- UTF-8 bytes of one character. -/
def utf8Char (c : Char) : List ℕ :=
  let n := c.toNat
  if n < 0x80 then [n]
  else if n < 0x800 then [0xc0 + n / 64, 0x80 + n % 64]
  else if n < 0x10000 then [0xe0 + n / 4096, 0x80 + n / 64 % 64, 0x80 + n % 64]
  else [0xf0 + n / 262144, 0x80 + n / 4096 % 64, 0x80 + n / 64 % 64, 0x80 + n % 64]

/-- UTF-8 bytes of a string. -/
def utf8 (s : String) : List ℕ := (s.data.map utf8Char).flatten

/-- MessagePack encoding of an integer (int64 range). -/
def encodeInt (n : ℤ) : List ℕ :=
  if 0 ≤ n then
    let m := n.toNat
    if m < 128 then [m]
    else if m < 256 then [0xcc, m]
    else if m < 65536 then 0xcd :: beBytes 2 m
    else if m < 4294967296 then 0xce :: beBytes 4 m
    else 0xcf :: beBytes 8 m
  else
    if -32 ≤ n then [(256 + n).toNat]
    else if -128 ≤ n then [0xd0, (256 + n).toNat]
    else if -32768 ≤ n then 0xd1 :: beBytes 2 (n + 65536).toNat
    else if -2147483648 ≤ n then 0xd2 :: beBytes 4 (n + 4294967296).toNat
    else 0xd3 :: beBytes 8 (n + 18446744073709551616).toNat

/-- MessagePack encoding of a string: length header then UTF-8 bytes. -/
def encodeStr (s : String) : List ℕ :=
  let bs := utf8 s
  let len := bs.length
  (if len < 32 then [0xa0 + len]
   else if len < 256 then [0xd9, len]
   else if len < 65536 then 0xda :: beBytes 2 len
   else 0xdb :: beBytes 4 len) ++ bs

/-- MessagePack array header for `len` elements. -/
def arrHeader (len : ℕ) : List ℕ :=
  if len < 16 then [0x90 + len]
  else if len < 65536 then 0xdc :: beBytes 2 len
  else 0xdd :: beBytes 4 len

/-- MessagePack map header for `len` key/value pairs. -/
def mapHeader (len : ℕ) : List ℕ :=
  if len < 16 then [0x80 + len]
  else if len < 65536 then 0xde :: beBytes 2 len
  else 0xdf :: beBytes 4 len

mutual
/-- MessagePack encoding of a value. -/
def encode : MsgVal → List ℕ
  | .nil => [0xc0]
  | .bool false => [0xc2]
  | .bool true => [0xc3]
  | .int n => encodeInt n
  | .str s => encodeStr s
  | .arr items => arrHeader items.len ++ encodeList items
  | .map pairs => mapHeader pairs.len ++ encodePairs pairs

/-- MessagePack encoding of the elements of an array body. -/
def encodeList : MsgList → List ℕ
  | .nil => []
  | .cons v tl => encode v ++ encodeList tl

/-- MessagePack encoding of the entries of a map body, each a key string
followed by its value, in insertion order. -/
def encodePairs : MsgPairs → List ℕ
  | .nil => []
  | .cons k v tl => encodeStr k ++ encode v ++ encodePairs tl
end

/-! ### Numeric wire codec (floatToWire, src/unnamed/part_000 lines 212-221
and src/unnamed/part_001 lines 85-94) -/

/-- JavaScript `Math.abs` on our rational model of numbers. -/
def jsAbs (q : ℚ) : ℚ := if q < 0 then -q else q

/-- The integer numerator produced by `x.toFixed(8)`: ECMA-262 extracts the
sign, then picks the integer `n` minimising `|n / 10^8 - |x||`, preferring
the larger `n` on ties (round half away from zero).  For `|x| ≥ 10^21`,
`toFixed` instead returns `ToString(x)`; every IEEE double of that
magnitude is an integer, on which rounding to 8 decimals is the identity,
so the uniform formula below agrees with the source on all
double-representable inputs. -/
def wireRoundInt (x : ℚ) : ℤ :=
  if x < 0 then -Rat.floor (-x * 100000000 + 1 / 2) else Rat.floor (x * 100000000 + 1 / 2)

/-- The rounded value denoted by the string `x.toFixed(8)` (what
`parseFloat(rounded)` reads back, modelling numbers exactly). -/
def wireRound (x : ℚ) : ℚ := (wireRoundInt x : ℚ) / 100000000

/-- Exponent suffix of decimal.js exponential notation: `e-7`, `e+21`. -/
def expChars (e : ℤ) : List Char :=
  if e < 0 then 'e' :: '-' :: natChars (-e).toNat else 'e' :: '+' :: natChars e.toNat

/-- Rendering of the value `n / 10^8` by `new Decimal(rounded).toString()`
with the decimal.js defaults `toExpNeg = -7`, `toExpPos = 21`: exponential
notation exactly when the decimal exponent `e` of the leading significant
digit satisfies `e ≤ -7` or `21 ≤ e`, plain notation otherwise, trailing
fractional zeros dropped, and a minus sign exactly when the value is
negative and nonzero (decimal.js prints negative zero as `0`, which also
covers the inert `rounded === '-0'` branch of the source: `toFixed(8)`
never yields the bare string `-0`). -/
def decExpMantissa (bigs : List Char) : List Char :=
  match bigs with
  | [] => []
  | c :: rest => if rest = [] then [c] else c :: '.' :: rest

/-- Unsigned decimal.js rendering of a value with `z` low-order zero
digits and little-endian significant digits `sig` at scale 8: with `e`
the decimal exponent of the leading significant digit, exponential
notation when `e ≤ -7` or `21 ≤ e`, otherwise plain notation (integer,
mixed, or leading-zero fractional form). -/
def decBody (z : ℕ) (sig : List ℕ) : List Char :=
  let bigs := sig.reverse.map digitChar
  let e : ℤ := (z : ℤ) + sig.length - 9
  if e ≤ -7 ∨ 21 ≤ e then decExpMantissa bigs ++ expChars e
  else if 8 ≤ z then bigs ++ List.replicate (z - 8) '0'
  else if 8 - z < sig.length then
    bigs.take (sig.length - (8 - z)) ++ '.' :: bigs.drop (sig.length - (8 - z))
  else '0' :: '.' :: (List.replicate (8 - z - sig.length) '0' ++ bigs)

/-- Rendering of the value `n / 10^8` by `new Decimal(rounded).toString()`
under the decimal.js defaults: `0` for zero regardless of sign, otherwise
the unsigned body prefixed with a minus sign exactly when `n` is negative
(decimal.js prints negative zero as `0`, which also covers the inert
`rounded === '-0'` branch of the source: `toFixed(8)` never yields the
bare string `-0`). -/
def decimalChars (n : ℤ) : List Char :=
  if n = 0 then ['0']
  else if n < 0 then
    '-' :: decBody (stripZeros (natDigits 10 n.natAbs)).1 (stripZeros (natDigits 10 n.natAbs)).2
  else decBody (stripZeros (natDigits 10 n.natAbs)).1 (stripZeros (natDigits 10 n.natAbs)).2

/-- floatToWire: round to 8 fractional digits via `toFixed(8)`, throw when
the reparsed rounded value differs from the input by at least `1e-12`
(the spec's `PrecisionLossError`), then render canonically through
decimal.js. -/
def floatToWire (x : ℚ) : Except String String :=
  if 1 / 1000000000000 ≤ jsAbs (wireRound x - x) then
    Except.error "floatToWire causes rounding"
  else Except.ok (String.mk (decimalChars (wireRoundInt x)))

/-! ### Address parsing (addressToBytes, src/unnamed/part_000 lines 139-141
and src/examples/Signing.tsx lines 69-72) -/

/-- JavaScript `address.startsWith('0x') ? address.slice(2) : address`. -/
def strip0x (cs : List Char) : List Char :=
  if cs.take 2 = ['0', 'x'] then cs.drop 2 else cs

/-- addressToBytes: strip an optional `0x` prefix and decode with Node's
`Buffer.from(-, hex)` semantics.  Note that no length or validity check is
performed: malformed input silently decodes to fewer than 20 bytes. -/
def addressToBytes (address : List Char) : List ℕ :=
  hexPairs (strip0x address)

/-- A well-formed routing-address body: exactly 40 hexadecimal characters
after stripping the optional prefix. -/
def IsHex40 (cs : List Char) : Prop :=
  cs.length = 40 ∧ ∀ c ∈ cs, isHexDigit c = true

instance (cs : List Char) : Decidable (IsHex40 cs) := by
  unfold IsHex40
  infer_instance

/-! ### Action hashing (actionHash and nonceToBytes,
src/unnamed/part_000 lines 143-165; hashAction, src/examples/Signing.tsx
lines 48-67) -/

/-- nonceToBytes: an 8-byte buffer filled by `writeBigUInt64BE`, which
throws a `RangeError` unless `0 ≤ nonce < 2^64`. -/
def nonceToBytes (nonce : ℕ) : Except String (List ℕ) :=
  if nonce < 2 ^ 64 then Except.ok (beBytes 8 nonce)
  else Except.error "RangeError: nonce out of range"

/-- actionHash (Buffer.concat construction): keccak256 of the MessagePack
bytes of the action, the 8-byte big-endian nonce, and either the single
byte `0` or the byte `1` followed by the decoded routing-address bytes. -/
def actionHash (action : MsgVal) (vaultAddress : Option (List Char)) (nonce : ℕ) :
    Except String (List ℕ) :=
  match nonceToBytes nonce with
  | .error e => .error e
  | .ok nonceBytes =>
      .ok (keccak256 (encode action ++ nonceBytes ++
        match vaultAddress with
        | none => [0]
        | some addr => 1 :: addressToBytes addr))

/-- Overwrite `src.length` bytes of `dst` starting at byte offset `off`
(the semantics of `TypedArray.prototype.set` and of `DataView` writes when
`off + src.length ≤ dst.length`, the only regime in which it is used). -/
def setBytes (dst : List ℕ) (off : ℕ) (src : List ℕ) : List ℕ :=
  dst.take off ++ src ++ dst.drop (off + src.length)

/-- hashAction (DataView construction, src/examples/Signing.tsx): allocate
`msg.length + 9` or `msg.length + 29` zeroed bytes, copy the MessagePack
bytes, write the nonce with `setBigUint64` (which wraps modulo `2^64`),
write the presence byte, and for a non-null address copy its decoded bytes.
`data.set` throws a `RangeError` when the source does not fit. -/
def hashAction (action : MsgVal) (vaultAddress : Option (List Char)) (nonce : ℕ) :
    Except String (List ℕ) :=
  let msgPackBytes := encode action
  let additionalBytesLength : ℕ := match vaultAddress with | none => 9 | some _ => 29
  let data0 := msgPackBytes ++ List.replicate additionalBytesLength 0
  let data1 := setBytes data0 msgPackBytes.length (beBytes 8 (nonce % 2 ^ 64))
  match vaultAddress with
  | none => .ok (keccak256 (setBytes data1 (msgPackBytes.length + 8) [0]))
  | some addr =>
      let ab := addressToBytes addr
      if ab.length ≤ 20 then
        .ok (keccak256 (setBytes (setBytes data1 (msgPackBytes.length + 8) [1])
          (msgPackBytes.length + 9) ab))
      else .error "RangeError: offset is out of bounds"

/-! ### Client identifier (Cloid, src/unnamed/part_000 lines 94-122) -/

/-- A validated client order identifier, wrapping its raw textual form. -/
structure Cloid where
  rawCloid : List Char
deriving DecidableEq

/-- The Cloid constructor: `_validate` requires the `0x` prefix and exactly
32 further characters (it does not check that they are hexadecimal). -/
def cloidValidate (raw : List Char) : Except String Cloid :=
  if raw.take 2 ≠ ['0', 'x'] then Except.error "cloid is not a hex string"
  else if (raw.drop 2).length ≠ 32 then Except.error "cloid is not 16 bytes"
  else Except.ok ⟨raw⟩

/-- Cloid.fromInt: `0x` plus the lowercase hexadecimal rendering of the
integer, left-padded with `0` to 32 characters. -/
def cloidFromInt (n : ℕ) : Except String Cloid :=
  cloidValidate (['0', 'x'] ++ (List.replicate (32 - (natHexChars n).length) '0' ++ natHexChars n))

/-- Cloid.fromStr: construct from the raw string, validating on the way. -/
def cloidFromStr (raw : List Char) : Except String Cloid :=
  cloidValidate raw

/-! ### Canonical action encoder (orderTypeToWire and
orderRequestToOrderWire, src/unnamed/part_000 lines 124-137 and 243-258,
src/unnamed/part_001 lines 96-128) -/

/-- Time-in-force tags. -/
inductive Tif where
  | Alo
  | Ioc
  | Gtc
deriving DecidableEq

/-- Take-profit / stop-loss tags. -/
inductive Tpsl where
  | tp
  | sl
deriving DecidableEq

/-- The limit variant payload. -/
structure LimitOrderType where
  tif : Tif
deriving DecidableEq

/-- The trigger variant payload (trigger price still a number). -/
structure TriggerOrderType where
  triggerPx : ℚ
  isMarket : Bool
  tpsl : Tpsl
deriving DecidableEq

/-- The trigger variant payload with the price already rendered. -/
structure TriggerOrderTypeWire where
  triggerPx : String
  isMarket : Bool
  tpsl : Tpsl
deriving DecidableEq

/-- An order type: at most one of the two variant fields is populated (the
TypeScript interface has two optional fields). -/
structure OrderType where
  limit : Option LimitOrderType
  trigger : Option TriggerOrderType
deriving DecidableEq

/-- An order-type wire value. -/
structure OrderTypeWire where
  limit : Option LimitOrderType
  trigger : Option TriggerOrderTypeWire
deriving DecidableEq

/-- orderTypeToWire: pass the limit variant through unchanged, re-render a
trigger variant's price with floatToWire, and reject anything else. -/
def orderTypeToWire (orderType : OrderType) : Except String OrderTypeWire :=
  match orderType.limit with
  | some l => .ok ⟨some l, none⟩
  | none =>
    match orderType.trigger with
    | some t =>
      match floatToWire t.triggerPx with
      | .error e => .error e
      | .ok px => .ok ⟨none, some ⟨px, t.isMarket, t.tpsl⟩⟩
    | none => .error "Invalid order type"

/-- An order request as built by the caller. -/
structure OrderRequest where
  coin : String
  is_buy : Bool
  sz : ℚ
  limit_px : ℚ
  order_type : OrderType
  reduce_only : Bool
  cloid : Option Cloid
deriving DecidableEq

/-- A value stored in an order-wire field. -/
inductive WireVal where
  | nat (n : ℕ)
  | bool (b : Bool)
  | str (s : String)
  | ord (t : OrderTypeWire)
deriving DecidableEq

/-- orderRequestToOrderWire: build the wire object with keys in insertion
order `a`, `b`, `p`, `s`, `r`, `t`, appending `c` only when a client order
id is supplied (the JavaScript object is modelled as its ordered key/value
list, which is what the order-preserving MessagePack encoder serializes). -/
def orderRequestToOrderWire (order : OrderRequest) (asset : ℕ) :
    Except String (List (String × WireVal)) :=
  match floatToWire order.limit_px with
  | .error e => .error e
  | .ok p =>
    match floatToWire order.sz with
    | .error e => .error e
    | .ok s =>
      match orderTypeToWire order.order_type with
      | .error e => .error e
      | .ok t =>
        let orderWire := [("a", WireVal.nat asset), ("b", WireVal.bool order.is_buy),
          ("p", WireVal.str p), ("s", WireVal.str s),
          ("r", WireVal.bool order.reduce_only), ("t", WireVal.ord t)]
        .ok (match order.cloid with
          | some c => orderWire ++ [("c", WireVal.str (String.mk c.rawCloid))]
          | none => orderWire)

/-! ### Phantom agent signer (constructPhantomAgent and signL1Action,
src/unnamed/part_000 lines 166-210; signStandardL1Action,
src/examples/Signing.tsx lines 10-46) -/

/-- The fixed EIP-712 domain constants. -/
structure Eip712Domain where
  name : String
  version : String
  chainId : ℕ
  verifyingContract : String
deriving DecidableEq

/-- The phantom-agent message: a network tag and the 32-byte action hash. -/
structure PhantomAgent where
  source : String
  connectionId : List ℕ
deriving DecidableEq

/-- constructPhantomAgent: source tag `a` on mainnet, `b` otherwise. -/
def constructPhantomAgent (hash : List ℕ) (isMainnet : Bool) : PhantomAgent :=
  ⟨if isMainnet then "a" else "b", hash⟩

/-- The fixed signing domain used by signL1Action. -/
def phantomDomain : Eip712Domain :=
  ⟨"Exchange", "1", 1337, "0x0000000000000000000000000000000000000000"⟩

/-- The fixed Agent typed-data schema: field names and types. -/
def agentTypes : List (String × String) :=
  [("source", "string"), ("connectionId", "bytes32")]

/-- Everything signL1Action hands to the wallet's typed-data signing
capability (the signing call itself is the external collaborator). -/
structure SignPayload where
  domain : Eip712Domain
  types : List (String × String)
  message : PhantomAgent
deriving DecidableEq

/-- The typed-data payload built by signL1Action before invoking the
wallet: the fixed domain and schema together with the phantom agent over
the action hash. -/
def signL1ActionPayload (action : MsgVal) (activePool : Option (List Char)) (nonce : ℕ)
    (isMainnet : Bool) : Except String SignPayload :=
  match actionHash action activePool nonce with
  | .error e => .error e
  | .ok hash => .ok ⟨phantomDomain, agentTypes, constructPhantomAgent hash isMainnet⟩

/-! ### Signature normalization (splitSig, src/examples/Signing.tsx
lines 74-89) -/

/-- A split signature: hex-rendered `r` and `s` plus the recovery id `v`. -/
structure SplitSignature where
  r : List Char
  s : List Char
  v : ℕ
deriving DecidableEq

/-- splitSig: drop the `0x` prefix, require 130 hexadecimal characters,
accept a trailing recovery byte of `1b`, `1c`, `00` or `01` (hardware
signers return the 0/1 form), normalize it to 27 or 28, and return `r` and
`s` as the untouched 64-character substrings.  The source's error messages
interpolate the offending value; the model keeps their fixed prefixes. -/
def splitSig (sig0 : List Char) : Except String SplitSignature :=
  let sig := sig0.drop 2
  if sig.length ≠ 130 then Except.error "bad sig length"
  else
    let vv := sig.drop 128
    if vv ≠ ['1', 'c'] ∧ vv ≠ ['1', 'b'] ∧ vv ≠ ['0', '0'] ∧ vv ≠ ['0', '1'] then
      Except.error "bad sig v"
    else
      Except.ok ⟨'0' :: 'x' :: sig.take 64, '0' :: 'x' :: (sig.drop 64).take 64,
        if vv = ['1', 'b'] ∨ vv = ['0', '0'] then 27 else 28⟩

/-- Decidable equality for `Except`, needed to settle concrete runs of the
fallible functions by `decide`. -/
instance {e a : Type} [DecidableEq e] [DecidableEq a] : DecidableEq (Except e a) := fun x y =>
  match x, y with
  | .error u, .error v =>
    if h : u = v then isTrue (by rw [h]) else isFalse (by intro hc; cases hc; exact h rfl)
  | .ok u, .ok v =>
    if h : u = v then isTrue (by rw [h]) else isFalse (by intro hc; cases hc; exact h rfl)
  | .error _, .ok _ => isFalse (by intro hc; cases hc)
  | .ok _, .error _ => isFalse (by intro hc; cases hc)

/-- The bytes the hasher appends after the nonce: the presence byte `0`
for a null routing address, else `1` followed by the decoded address. -/
def presenceBytes (vaultAddress : Option (List Char)) : List ℕ :=
  match vaultAddress with
  | none => [0]
  | some addr => 1 :: addressToBytes addr

/-- The string with a leading minus sign removed, when one is present. -/
def stripSign (cs : List Char) : List Char :=
  if cs.head? = some '-' then cs.tail else cs

/-! ### Basic lemmas about the byte and digit helpers -/

set_option maxRecDepth 10000 in
/-- Sanity check: the model reproduces the standard keccak256 test vector
for the empty message. -/
example : keccak256 [] =
    [197, 210, 70, 1, 134, 247, 35, 60, 146, 126, 125, 178, 220, 199, 3, 192, 229, 0,
     182, 83, 202, 130, 39, 59, 123, 250, 216, 4, 93, 133, 164, 112] := by decide

theorem beBytes_length : ∀ k n, (beBytes k n).length = k := by
  intro k
  induction k with
  | zero => intro n; rfl
  | succ k ih => intro n; simp [beBytes, ih]

theorem beValue_append_singleton (l : List ℕ) (b : ℕ) :
    beValue (l ++ [b]) = beValue l * 256 + b := by
  simp [beValue, List.foldl_append]

theorem beValue_beBytes : ∀ k n, beValue (beBytes k n) = n % 256 ^ k := by
  intro k
  induction k with
  | zero => intro n; simp [beBytes, beValue, Nat.mod_one]
  | succ k ih =>
    intro n
    rw [beBytes, beValue_append_singleton, ih]
    have h : 256 ^ (k + 1) = 256 * 256 ^ k := by ring
    rw [h, Nat.mod_mul]
    ring

theorem keccak256_length (msg : List ℕ) : (keccak256 msg).length = 32 := by
  simp [keccak256]

theorem digitsAux_eq (b : ℕ) (hb : 1 < b) :
    ∀ fuel n, n ≤ fuel → digitsAux b fuel n = Nat.digits b n := by
  intro fuel
  induction fuel with
  | zero =>
    intro n hn
    interval_cases n
    simp [digitsAux]
  | succ fuel ih =>
    intro n hn
    match n with
    | 0 => simp [digitsAux]
    | m + 1 =>
      rw [digitsAux, Nat.digits_def' hb (Nat.succ_pos m), ih]
      have hdiv : (m + 1) / b < m + 1 := Nat.div_lt_self (Nat.succ_pos m) hb
      omega

theorem natDigits_eq (b n : ℕ) (hb : 1 < b) : natDigits b n = Nat.digits b n :=
  digitsAux_eq b hb n n le_rfl

theorem stripZeros_spec :
    ∀ ds : List ℕ, ds = List.replicate (stripZeros ds).1 0 ++ (stripZeros ds).2 := by
  intro ds
  induction ds with
  | nil => rfl
  | cons d tl ih =>
    by_cases hd : d = 0
    · subst hd
      simp only [stripZeros, if_pos rfl, List.replicate_succ, List.cons_append]
      exact congrArg (0 :: ·) ih
    · simp [stripZeros, hd]

theorem stripZeros_head :
    ∀ (ds : List ℕ) (d : ℕ), (stripZeros ds).2.head? = some d → d ≠ 0 := by
  intro ds
  induction ds with
  | nil => intro d h; simp [stripZeros] at h
  | cons a tl ih =>
    intro d h
    by_cases ha : a = 0
    · subst ha
      simp only [stripZeros, if_pos rfl] at h
      exact ih d h
    · simp only [stripZeros, if_neg ha, List.head?_cons, Option.some_inj] at h
      exact h ▸ ha

theorem ofDigits_replicate_zero : ∀ z : ℕ, Nat.ofDigits 10 (List.replicate z 0) = 0 := by
  intro z
  induction z with
  | zero => rfl
  | succ z ih => simp [List.replicate_succ, Nat.ofDigits, ih]

theorem hexPairs_length_of_valid :
    ∀ (n : ℕ) (cs : List Char), cs.length = 2 * n → (∀ c ∈ cs, isHexDigit c = true) →
      (hexPairs cs).length = n := by
  intro n
  induction n with
  | zero =>
    intro cs hlen _
    have : cs = [] := List.eq_nil_of_length_eq_zero (by omega)
    subst this
    rfl
  | succ n ih =>
    intro cs hlen hhex
    match cs with
    | [] => simp at hlen
    | [_] => simp at hlen; omega
    | c1 :: c2 :: rest =>
      have h1 : isHexDigit c1 = true := hhex c1 (by simp)
      have h2 : isHexDigit c2 = true := hhex c2 (by simp)
      obtain ⟨v1, hv1⟩ := Option.isSome_iff_exists.mp h1
      obtain ⟨v2, hv2⟩ := Option.isSome_iff_exists.mp h2
      have hrest : rest.length = 2 * n := by simp at hlen; omega
      rw [hexPairs, hv1, hv2]
      simp only [List.length_cons]
      rw [ih rest hrest (fun c hc => hhex c (by simp [hc]))]

theorem addressToBytes_length_of_valid (address : List Char) (h : IsHex40 (strip0x address)) :
    (addressToBytes address).length = 20 := by
  obtain ⟨hlen, hhex⟩ := h
  exact hexPairs_length_of_valid 20 (strip0x address) (by omega) hhex

/-! ### Lemmas about the rounding step of floatToWire -/

theorem jsAbs_eq_abs (q : ℚ) : jsAbs q = |q| := by
  rw [jsAbs]
  split
  · rw [abs_of_neg (by assumption)]
  · rw [abs_of_nonneg (le_of_not_lt (by assumption))]

theorem wireRound_int (x : ℚ) : wireRound x = (wireRoundInt x : ℚ) / 100000000 := rfl

theorem round_half_near (y : ℚ) : |(⌊y + 1 / 2⌋ : ℚ) - y| ≤ 1 / 2 := by
  have h1 : (⌊y + 1 / 2⌋ : ℚ) ≤ y + 1 / 2 := Int.floor_le _
  have h2 : y + 1 / 2 - 1 < (⌊y + 1 / 2⌋ : ℚ) := Int.sub_one_lt_floor _
  rw [abs_le]
  constructor <;> linarith

theorem ratFloor_eq_floor (q : ℚ) : Rat.floor q = ⌊q⌋ :=
  (Rat.floor_def' q).trans Rat.floor_def.symm

theorem wireRound_near (x : ℚ) : |wireRound x - x| ≤ 1 / 200000000 := by
  rw [wireRound, wireRoundInt]
  simp only [ratFloor_eq_floor]
  by_cases hx : x < 0
  · rw [if_pos hx]
    have key := round_half_near (-x * 100000000)
    have heq : ((-⌊-x * 100000000 + 1 / 2⌋ : ℤ) : ℚ) / 100000000 - x =
        -(((⌊-x * 100000000 + 1 / 2⌋ : ℚ) - -x * 100000000) / 100000000) := by
      push_cast
      ring
    rw [heq, abs_neg, abs_div, abs_of_pos (show (0 : ℚ) < 100000000 by norm_num)]
    linarith
  · rw [if_neg hx]
    have key := round_half_near (x * 100000000)
    have heq : ((⌊x * 100000000 + 1 / 2⌋ : ℤ) : ℚ) / 100000000 - x =
        ((⌊x * 100000000 + 1 / 2⌋ : ℚ) - x * 100000000) / 100000000 := by
      ring
    rw [heq, abs_div, abs_of_pos (show (0 : ℚ) < 100000000 by norm_num)]
    linarith

theorem floatToWire_error_iff (x : ℚ) :
    floatToWire x = Except.error "floatToWire causes rounding" ↔
      1 / 1000000000000 ≤ |wireRound x - x| := by
  rw [floatToWire, jsAbs_eq_abs]
  split
  · simp only [iff_true_intro (by assumption)]
  · simp only [iff_false_intro (by assumption)]
    simp

theorem floatToWire_ok_iff (x : ℚ) :
    (∃ s, floatToWire x = Except.ok s) ↔ |wireRound x - x| < 1 / 1000000000000 := by
  rw [floatToWire, jsAbs_eq_abs]
  split
  · simp only [iff_false_intro (not_lt_of_le (by assumption))]
    simp
  · simp only [iff_true_intro (lt_of_not_le (by assumption))]
    simp

theorem floatToWire_ok_chars (x : ℚ) (s : String) (h : floatToWire x = Except.ok s) :
    s.data = decimalChars (wireRoundInt x) := by
  rw [floatToWire] at h
  split at h
  · cases h
  · cases h
    rfl

/-! ### Evaluating floatToWire on concrete inputs -/

theorem wireRoundInt_eval_nonneg (x : ℚ) (n : ℤ) (hx : ¬x < 0)
    (h1 : (n : ℚ) ≤ x * 100000000 + 1 / 2) (h2 : x * 100000000 + 1 / 2 < n + 1) :
    wireRoundInt x = n := by
  rw [wireRoundInt, if_neg hx, ratFloor_eq_floor]
  exact Int.floor_eq_iff.mpr ⟨h1, h2⟩

theorem wireRoundInt_eval_neg (x : ℚ) (n : ℤ) (hx : x < 0)
    (h1 : ((-n : ℤ) : ℚ) ≤ -x * 100000000 + 1 / 2) (h2 : -x * 100000000 + 1 / 2 < -n + 1) :
    wireRoundInt x = n := by
  rw [wireRoundInt, if_pos hx, ratFloor_eq_floor]
  rw [Int.floor_eq_iff.mpr ⟨h1, h2⟩]
  omega

theorem floatToWire_eval_ok (x : ℚ) (n : ℤ) (hn : wireRoundInt x = n)
    (hok : jsAbs ((n : ℚ) / 100000000 - x) < 1 / 1000000000000) :
    floatToWire x = Except.ok (String.mk (decimalChars n)) := by
  rw [floatToWire, wireRound, hn, if_neg (not_le_of_lt hok)]

theorem floatToWire_eval_error (x : ℚ) (n : ℤ) (hn : wireRoundInt x = n)
    (herr : 1 / 1000000000000 ≤ jsAbs ((n : ℚ) / 100000000 - x)) :
    floatToWire x = Except.error "floatToWire causes rounding" := by
  rw [floatToWire, wireRound, hn, if_pos herr]

theorem floatToWire_90000 : floatToWire 90000 = Except.ok "90000" := by
  have hn : wireRoundInt 90000 = 9000000000000 :=
    wireRoundInt_eval_nonneg _ _ (by norm_num) (by norm_num) (by norm_num)
  rw [floatToWire_eval_ok 90000 9000000000000 hn (by simp only [jsAbs]; norm_num)]
  rfl

theorem floatToWire_small_tick : floatToWire (1 / 10000000) = Except.ok "1e-7" := by
  have hn : wireRoundInt (1 / 10000000) = 10 :=
    wireRoundInt_eval_nonneg _ _ (by norm_num) (by norm_num) (by norm_num)
  rw [floatToWire_eval_ok (1 / 10000000) 10 hn (by simp only [jsAbs]; norm_num)]
  rfl

theorem floatToWire_precision_loss :
    floatToWire (123456785 / 1000000000) = Except.error "floatToWire causes rounding" := by
  have hn : wireRoundInt (123456785 / 1000000000) = 12345679 :=
    wireRoundInt_eval_nonneg _ _ (by norm_num) (by norm_num) (by norm_num)
  exact floatToWire_eval_error _ _ hn (by simp only [jsAbs]; norm_num)

theorem floatToWire_milli : floatToWire (1 / 1000) = Except.ok "0.001" := by
  have hn : wireRoundInt (1 / 1000) = 100000 :=
    wireRoundInt_eval_nonneg _ _ (by norm_num) (by norm_num) (by norm_num)
  rw [floatToWire_eval_ok (1 / 1000) 100000 hn (by simp only [jsAbs]; norm_num)]
  rfl

/-! ## Claim C2 -/

/-- C2: for every number `x`, floatToWire rounds `x` to 8 fractional
decimal digits (the rounded value is an integer multiple of `10 ^ (-8)` at
distance at most half a tick from `x`) and throws the rounding error
(`PrecisionLossError`, thrown as `floatToWire causes rounding`) exactly
when the rounded value, reparsed, differs from `x` by at least `1e-12`; in
particular `floatToWire 0.123456785` throws and `floatToWire 90000`
returns `"90000"`. -/
theorem floatToWire_precision_spec :
    (∀ x : ℚ,
      (∃ m : ℤ, wireRound x = (m : ℚ) / 100000000) ∧
      |wireRound x - x| ≤ 1 / 200000000 ∧
      (floatToWire x = Except.error "floatToWire causes rounding" ↔
        1 / 1000000000000 ≤ |wireRound x - x|)) ∧
    floatToWire (123456785 / 1000000000) = Except.error "floatToWire causes rounding" ∧
    floatToWire 90000 = Except.ok "90000" :=
  ⟨fun x => ⟨⟨wireRoundInt x, rfl⟩, wireRound_near x, floatToWire_error_iff x⟩,
    floatToWire_precision_loss, floatToWire_90000⟩

/-! ## Claim C5 -/

/-- C5: orderTypeToWire returns a limit wire carrying the time-in-force
value verbatim for a limit variant, a trigger wire with the trigger price
re-rendered through floatToWire and `isMarket` and `tpsl` preserved for a
trigger variant (propagating a floatToWire failure), and throws
`Invalid order type` (the spec's `InvalidOrderTypeError`) for every other
shape. -/
theorem orderTypeToWire_spec (ot : OrderType) :
    (∀ l, ot.limit = some l → orderTypeToWire ot = Except.ok ⟨some l, none⟩) ∧
    (∀ t, ot.limit = none → ot.trigger = some t →
      (∀ e, floatToWire t.triggerPx = Except.error e → orderTypeToWire ot = Except.error e) ∧
      (∀ px, floatToWire t.triggerPx = Except.ok px →
        orderTypeToWire ot = Except.ok ⟨none, some ⟨px, t.isMarket, t.tpsl⟩⟩)) ∧
    (ot.limit = none → ot.trigger = none →
      orderTypeToWire ot = Except.error "Invalid order type") := by
  refine ⟨?_, ?_, ?_⟩
  · intro l hl
    rw [orderTypeToWire, hl]
  · intro t hl ht
    constructor
    · intro e he
      simp only [orderTypeToWire, hl, ht, he]
    · intro px hpx
      simp only [orderTypeToWire, hl, ht, hpx]
  · intro hl ht
    rw [orderTypeToWire, hl, ht]

/-- Witness for C5 at the concrete order types used in the examples. -/
theorem orderTypeToWire_spec_witness :
    (⟨some ⟨Tif.Gtc⟩, none⟩ : OrderType).limit = some ⟨Tif.Gtc⟩ ∧
    orderTypeToWire ⟨some ⟨Tif.Gtc⟩, none⟩ = Except.ok ⟨some ⟨Tif.Gtc⟩, none⟩ :=
  ⟨rfl, (orderTypeToWire_spec ⟨some ⟨Tif.Gtc⟩, none⟩).1 ⟨Tif.Gtc⟩ rfl⟩

/-! ## Claim C7 -/

/-- C7 counterexample: the claim says fromStr throws for every string that
is not `0x` followed by 32 hexadecimal characters, but the constructor
only validates the prefix and the length, never hex-ness: `0x` followed by
32 `z` characters is accepted. -/
theorem cloidFromStr_accepts_nonhex :
    cloidFromStr (['0', 'x'] ++ List.replicate 32 'z') =
      Except.ok ⟨['0', 'x'] ++ List.replicate 32 'z'⟩ := by decide

/-- C7 (amended): fromInt 1 yields `0x00000000000000000000000000000001`
(0x plus lowercase hex left-zero-padded to 32 characters), and fromStr
accepts exactly the strings consisting of the prefix `0x` followed by
exactly 32 further characters (hex-ness of those characters is not
validated), throwing `InvalidCloidError` otherwise — in particular
`fromStr "0x123"` and `fromStr "deadbeefdeadbeefdeadbeefdeadbeef"` both
fail. -/
theorem cloid_construction_spec :
    (∀ raw : List Char,
      ((∃ c, cloidFromStr raw = Except.ok c) ↔ raw.take 2 = ['0', 'x'] ∧ raw.length = 34) ∧
      (∀ c, cloidFromStr raw = Except.ok c → c.rawCloid = raw)) ∧
    cloidFromInt 1 = Except.ok ⟨"0x00000000000000000000000000000001".data⟩ ∧
    cloidFromStr ("0x123".data) = Except.error "cloid is not 16 bytes" ∧
    cloidFromStr ("deadbeefdeadbeefdeadbeefdeadbeef".data) =
      Except.error "cloid is not a hex string" := by
  refine ⟨?_, by decide, by decide, by decide⟩
  intro raw
  constructor
  · rw [cloidFromStr, cloidValidate]
    by_cases h1 : raw.take 2 = ['0', 'x']
    · have hlen2 : raw.length ≥ 2 := by
        have := congrArg List.length h1
        simp [List.length_take] at this
        omega
      rw [if_neg (by simpa using h1)]
      by_cases h2 : (raw.drop 2).length = 32
      · rw [if_neg (by simpa using h2)]
        simp only [List.length_drop] at h2
        constructor
        · intro _
          exact ⟨h1, by omega⟩
        · intro _
          exact ⟨⟨raw⟩, rfl⟩
      · rw [if_pos h2]
        simp only [List.length_drop] at h2
        constructor
        · intro ⟨c, hc⟩
          cases hc
        · intro ⟨_, hlen⟩
          omega
    · rw [if_pos h1]
      constructor
      · intro ⟨c, hc⟩
        cases hc
      · intro ⟨hpre, _⟩
        exact absurd hpre h1
  · intro c hc
    rw [cloidFromStr, cloidValidate] at hc
    split at hc
    · cases hc
    · split at hc
      · cases hc
      · cases hc
        rfl

/-- Witness for C7 (amended) at a concrete well-formed raw string. -/
theorem cloid_construction_spec_witness :
    ∃ c, cloidFromStr ("0x00000000000000000000000000000001".data) = Except.ok c ∧
      c.rawCloid = "0x00000000000000000000000000000001".data := by
  obtain ⟨c, hc⟩ :=
    ((cloid_construction_spec.1 ("0x00000000000000000000000000000001".data)).1).mpr (by decide)
  exact ⟨c, hc, (cloid_construction_spec.1 _).2 c hc⟩

/-! ## Claim C6 -/

/-- C6 counterexample: address parsing does not fail on malformed input;
`addressToBytes "0x123"` silently returns the single byte `0x12` (not 20
bytes), and actionHash embeds it after the presence byte without error. -/
theorem addressToBytes_silent_truncation :
    addressToBytes ("0x123".data) = [18] ∧ ([18] : List ℕ).length ≠ 20 ∧
    ∃ d, actionHash MsgVal.nil (some ("0x123".data)) 0 = Except.ok d := by
  refine ⟨by decide, by decide,
    ⟨keccak256 (encode MsgVal.nil ++ beBytes 8 0 ++ (1 :: addressToBytes ("0x123".data))), ?_⟩⟩
  rfl

/-- C6 (amended): address parsing never throws: it strips an optional `0x`
prefix and hex-decodes the leading valid byte pairs, so a well-formed
40-hex-character address yields exactly 20 bytes, while a malformed
address is silently accepted and can decode to a byte array of the wrong
length (`0x123` decodes to the single byte `0x12`, which actionHash embeds
after the `0x01` presence byte without any length check) or even to the
well-formed 20-byte length (40 valid hex characters followed by a trailing
space still decode to 20 bytes); no `MalformedAddressError` exists. -/
theorem addressToBytes_spec :
    (∀ address : List Char, IsHex40 (strip0x address) → (addressToBytes address).length = 20) ∧
    addressToBytes ("0x123".data) = [18] ∧
    ¬IsHex40 (strip0x ("0x00000000000000000000000000000000000000ff ".data)) ∧
    (addressToBytes ("0x00000000000000000000000000000000000000ff ".data)).length = 20 :=
  ⟨addressToBytes_length_of_valid, by decide, by decide, by decide⟩

/-- Witness for C6 (amended) at a concrete well-formed address. -/
theorem addressToBytes_spec_witness :
    IsHex40 (strip0x ("0x00000000000000000000000000000000000000ff".data)) ∧
    (addressToBytes ("0x00000000000000000000000000000000000000ff".data)).length = 20 :=
  ⟨by decide, addressToBytes_spec.1 _ (by decide)⟩

/-! ## Claim C4 -/

/-- C4: for every order request and asset index, a successful
orderRequestToOrderWire yields a wire object whose keys appear in exactly
the order `a`, `b`, `p`, `s`, `r`, `t`, then `c`, where `p` and `s` are
the floatToWire renderings of the limit price and the size, and the key
`c` is entirely absent whenever no client order id is supplied. -/
theorem orderRequestToOrderWire_spec (order : OrderRequest) (asset : ℕ)
    (w : List (String × WireVal)) (hw : orderRequestToOrderWire order asset = Except.ok w) :
    (w.map Prod.fst =
      ["a", "b", "p", "s", "r", "t"] ++
        (match order.cloid with | some _ => ["c"] | none => [])) ∧
    (∃ p s t, floatToWire order.limit_px = Except.ok p ∧ floatToWire order.sz = Except.ok s ∧
      orderTypeToWire order.order_type = Except.ok t ∧
      w.lookup "a" = some (WireVal.nat asset) ∧
      w.lookup "b" = some (WireVal.bool order.is_buy) ∧
      w.lookup "p" = some (WireVal.str p) ∧
      w.lookup "s" = some (WireVal.str s) ∧
      w.lookup "r" = some (WireVal.bool order.reduce_only) ∧
      w.lookup "t" = some (WireVal.ord t)) ∧
    (order.cloid = none → w.lookup "c" = none) ∧
    (∀ c, order.cloid = some c → w.lookup "c" = some (WireVal.str (String.mk c.rawCloid))) := by
  rw [orderRequestToOrderWire.eq_def] at hw
  rcases hp : floatToWire order.limit_px with ep | p <;> simp only [hp] at hw
  · cases hw
  rcases hs : floatToWire order.sz with es | s <;> simp only [hs] at hw
  · cases hw
  rcases htw : orderTypeToWire order.order_type with et | t <;> simp only [htw] at hw
  · cases hw
  rcases hc : order.cloid with _ | c <;> simp only [hc] at hw <;> cases hw
  · refine ⟨by simp, ⟨p, s, t, rfl, rfl, rfl, by simp [List.lookup], by simp [List.lookup],
      by simp [List.lookup], by simp [List.lookup], by simp [List.lookup],
      by simp [List.lookup]⟩, ?_, ?_⟩
    · intro _
      simp [List.lookup]
    · intro c hcc
      exact nomatch hcc
  · refine ⟨by simp, ⟨p, s, t, rfl, rfl, rfl, by simp [List.lookup], by simp [List.lookup],
      by simp [List.lookup], by simp [List.lookup], by simp [List.lookup],
      by simp [List.lookup]⟩, ?_, ?_⟩
    · intro hn
      exact nomatch hn
    · intro c' hc'
      cases hc'
      simp [List.lookup]

/-- Witness for C4 at the end-to-end example order of the spec (asset 0,
buy, size 0.001, limit price 90000, Gtc, no client id). -/
theorem orderRequestToOrderWire_spec_witness :
    ∃ w, orderRequestToOrderWire
        ⟨"BTC", true, 1 / 1000, 90000, ⟨some ⟨Tif.Gtc⟩, none⟩, false, none⟩ 0 =
        Except.ok w ∧
      w.map Prod.fst = ["a", "b", "p", "s", "r", "t"] ∧ w.lookup "c" = none := by
  have h : orderRequestToOrderWire
      ⟨"BTC", true, 1 / 1000, 90000, ⟨some ⟨Tif.Gtc⟩, none⟩, false, none⟩ 0 =
      Except.ok [("a", WireVal.nat 0), ("b", WireVal.bool true), ("p", WireVal.str "90000"),
        ("s", WireVal.str "0.001"), ("r", WireVal.bool false),
        ("t", WireVal.ord ⟨some ⟨Tif.Gtc⟩, none⟩)] := by
    rw [orderRequestToOrderWire.eq_def]
    simp only [floatToWire_90000, floatToWire_milli]
    rfl
  have spec := orderRequestToOrderWire_spec _ 0 _ h
  refine ⟨_, h, ?_, spec.2.2.1 rfl⟩
  have h1 := spec.1
  simp only [List.append_nil] at h1
  exact h1

/-! ## Claim C9 -/

/-- C9: for every hash and network flag, the signer builds exactly the
two-field phantom-agent message whose source is the literal `a` on
mainnet and `b` otherwise and whose connectionId is the hash, and places
it under the fixed typed-data domain (name `Exchange`, version `1`,
chainId 1337, zero verifying contract) with the fixed Agent schema,
independent of the per-call action, pool, and nonce arguments. -/
theorem signL1ActionPayload_spec :
    (∀ (hash : List ℕ) (isMainnet : Bool),
      constructPhantomAgent hash isMainnet = ⟨if isMainnet then "a" else "b", hash⟩) ∧
    phantomDomain = ⟨"Exchange", "1", 1337, "0x0000000000000000000000000000000000000000"⟩ ∧
    agentTypes = [("source", "string"), ("connectionId", "bytes32")] ∧
    (∀ action activePool nonce isMainnet payload,
      signL1ActionPayload action activePool nonce isMainnet = Except.ok payload →
        payload.domain = phantomDomain ∧ payload.types = agentTypes ∧
        ∃ hash, actionHash action activePool nonce = Except.ok hash ∧
          payload.message = constructPhantomAgent hash isMainnet ∧
          payload.message.source = (if isMainnet then "a" else "b") ∧
          payload.message.connectionId = hash ∧ hash.length = 32) := by
  refine ⟨fun _ _ => rfl, rfl, rfl, ?_⟩
  intro action activePool nonce isMainnet payload hp
  rw [signL1ActionPayload] at hp
  rcases hh : actionHash action activePool nonce with e | hash <;> rw [hh] at hp
  · cases hp
  cases hp
  have hlen : hash.length = 32 := by
    rw [actionHash.eq_def] at hh
    rcases hnb : nonceToBytes nonce with e | nb <;> rw [hnb] at hh
    · cases hh
    · cases hh
      exact keccak256_length _
  exact ⟨rfl, rfl, hash, rfl, rfl, rfl, rfl, hlen⟩

/-- Witness for C9 at a concrete action, no pool, nonce 0, mainnet. -/
theorem signL1ActionPayload_spec_witness :
    ∃ payload, signL1ActionPayload MsgVal.nil none 0 true = Except.ok payload ∧
      payload.domain = phantomDomain ∧
      payload.message.source = "a" := by
  have h : signL1ActionPayload MsgVal.nil none 0 true =
      Except.ok ⟨phantomDomain, agentTypes,
        constructPhantomAgent (keccak256 (encode MsgVal.nil ++ beBytes 8 0 ++ [0])) true⟩ := rfl
  have spec := (signL1ActionPayload_spec.2.2.2) MsgVal.nil none 0 true _ h
  exact ⟨_, h, spec.1, by
    obtain ⟨hash, _, _, hsrc, _, _⟩ := spec.2.2
    simpa using hsrc⟩

/-! ## Claim C1 -/

/-- C1: for every action, unsigned 64-bit nonce, and optional well-formed
routing address, actionHash succeeds and its digest is keccak256 of
exactly the concatenation of the MessagePack encoding of the action, then
exactly 8 bytes holding the nonce big-endian, then the presence byte `0`
when the routing address is null and otherwise `1` followed by exactly 20
raw address bytes; the digest has 32 bytes.  Determinism in the three
inputs is immediate because the model is a pure function of them. -/
theorem actionHash_spec (action : MsgVal) (vaultAddress : Option (List Char)) (nonce : ℕ)
    (hn : nonce < 2 ^ 64)
    (hv : ∀ s, vaultAddress = some s → IsHex40 (strip0x s)) :
    ∃ d, actionHash action vaultAddress nonce = Except.ok d ∧
      d = keccak256 (encode action ++ beBytes 8 nonce ++ presenceBytes vaultAddress) ∧
      d.length = 32 ∧
      (beBytes 8 nonce).length = 8 ∧
      beValue (beBytes 8 nonce) = nonce ∧
      presenceBytes none = [0] ∧
      (∀ s, presenceBytes (some s) = 1 :: addressToBytes s) ∧
      (∀ s, vaultAddress = some s → (addressToBytes s).length = 20) := by
  have hnb : nonceToBytes nonce = Except.ok (beBytes 8 nonce) := by
    rw [nonceToBytes, if_pos hn]
  refine ⟨_, ?_, rfl, keccak256_length _, beBytes_length 8 nonce, ?_, rfl, fun s => rfl, ?_⟩
  · rw [actionHash.eq_def, hnb]
    rfl
  · rw [beValue_beBytes]
    have h64 : (256 : ℕ) ^ 8 = 2 ^ 64 := by norm_num
    rw [h64]
    exact Nat.mod_eq_of_lt hn
  · intro s hs
    exact addressToBytes_length_of_valid s (hv s hs)

/-- Witness for C1 at a concrete action, a concrete well-formed address,
and nonce 5. -/
theorem actionHash_spec_witness :
    5 < 2 ^ 64 ∧
    ∃ d, actionHash MsgVal.nil (some ("0x00000000000000000000000000000000000000ff".data)) 5 =
        Except.ok d ∧ d.length = 32 := by
  have h := actionHash_spec MsgVal.nil (some ("0x00000000000000000000000000000000000000ff".data))
    5 (by norm_num) (fun s hs => by cases hs; decide)
  obtain ⟨d, hd, _, hlen, _⟩ := h
  exact ⟨by norm_num, d, hd, hlen⟩

/-! ## Claim C10 -/

theorem setBytes_at (pre src suf : List ℕ) :
    setBytes (pre ++ suf) pre.length src = pre ++ src ++ suf.drop src.length := by
  rw [setBytes, List.take_left]
  have hd : (pre ++ suf).drop (pre.length + src.length) = suf.drop src.length := by
    rw [← List.drop_drop, List.drop_left]
  rw [hd, List.append_assoc]

theorem setBytes_at' (pre src suf : List ℕ) (off : ℕ) (hoff : off = pre.length) :
    setBytes (pre ++ suf) off src = pre ++ src ++ suf.drop src.length := by
  rw [hoff]
  exact setBytes_at pre src suf

/-- C10 (amended): the two hash implementations agree for every action,
unsigned 64-bit nonce, and routing address that is either null or
well-formed (40 hexadecimal characters after the optional prefix). -/
theorem hashAction_eq_actionHash (action : MsgVal) (vaultAddress : Option (List Char))
    (nonce : ℕ) (hn : nonce < 2 ^ 64)
    (hv : ∀ s, vaultAddress = some s → IsHex40 (strip0x s)) :
    hashAction action vaultAddress nonce = actionHash action vaultAddress nonce := by
  have hmod : nonce % 2 ^ 64 = nonce := Nat.mod_eq_of_lt hn
  rcases vaultAddress with _ | addr
  · rw [hashAction.eq_def, actionHash.eq_def, nonceToBytes, if_pos hn]
    simp only [hmod]
    have h1 : setBytes (encode action ++ List.replicate 9 0) (encode action).length
        (beBytes 8 nonce) = (encode action ++ beBytes 8 nonce) ++ [0] := by
      rw [setBytes_at, beBytes_length, List.drop_replicate, List.append_assoc]
      simp
    have h2 : setBytes ((encode action ++ beBytes 8 nonce) ++ [0])
        ((encode action).length + 8) [0] = (encode action ++ beBytes 8 nonce) ++ [0] := by
      rw [setBytes_at' (encode action ++ beBytes 8 nonce) [0] [0]
        ((encode action).length + 8) (by rw [List.length_append, beBytes_length])]
      simp
    rw [h1, h2, List.append_assoc]
  · have hab : (addressToBytes addr).length = 20 :=
      addressToBytes_length_of_valid addr (hv addr rfl)
    rw [hashAction.eq_def, actionHash.eq_def, nonceToBytes, if_pos hn]
    simp only [hmod, hab]
    rw [if_pos (le_refl 20)]
    have h1 : setBytes (encode action ++ List.replicate 29 0) (encode action).length
        (beBytes 8 nonce) = (encode action ++ beBytes 8 nonce) ++ List.replicate 21 0 := by
      rw [setBytes_at, beBytes_length, List.drop_replicate, List.append_assoc]
    have h2 : setBytes ((encode action ++ beBytes 8 nonce) ++ List.replicate 21 0)
        ((encode action).length + 8) [1] =
        ((encode action ++ beBytes 8 nonce) ++ [1]) ++ List.replicate 20 0 := by
      rw [setBytes_at' (encode action ++ beBytes 8 nonce) [1] (List.replicate 21 0)
        ((encode action).length + 8) (by rw [List.length_append, beBytes_length])]
      simp [List.append_assoc]
    have h3 : setBytes (((encode action ++ beBytes 8 nonce) ++ [1]) ++ List.replicate 20 0)
        ((encode action).length + 9) (addressToBytes addr) =
        ((encode action ++ beBytes 8 nonce) ++ [1]) ++ addressToBytes addr := by
      rw [setBytes_at' ((encode action ++ beBytes 8 nonce) ++ [1]) (addressToBytes addr)
        (List.replicate 20 0) ((encode action).length + 9)
        (by simp [List.length_append, beBytes_length])]
      rw [hab, List.drop_replicate]
      simp
    rw [h1, h2, h3]
    simp [List.append_assoc]

/-- Witness for C10 (amended) at a concrete action with no routing
address. -/
theorem hashAction_eq_actionHash_witness :
    0 < 2 ^ 64 ∧ hashAction MsgVal.nil none 0 = actionHash MsgVal.nil none 0 :=
  ⟨by norm_num, hashAction_eq_actionHash MsgVal.nil none 0 (by norm_num) (fun _ hs => nomatch hs)⟩

set_option maxRecDepth 10000 in
/-- C10 counterexample: the claim quantifies over every routing address,
but on the malformed address `0x123` the DataView implementation
zero-pads the 29 reserved bytes while the Buffer.concat implementation
appends only the single decoded byte, so the two keccak256 digests
differ. -/
theorem hashAction_ne_actionHash_on_malformed :
    hashAction MsgVal.nil (some ("0x123".data)) 0 ≠
      actionHash MsgVal.nil (some ("0x123".data)) 0 := by decide

/-! ## Claim C8 -/

theorem bytesHex_append (a b : List ℕ) : bytesHex (a ++ b) = bytesHex a ++ bytesHex b := by
  simp [bytesHex]

theorem bytesHex_length (bs : List ℕ) : (bytesHex bs).length = 2 * bs.length := by
  induction bs with
  | nil => rfl
  | cons b tl ih =>
    simp only [bytesHex, List.map_cons, List.flatten_cons, List.length_append,
      List.length_cons] at *
    simp only [byteHex, List.length_cons, List.length_nil]
    omega

theorem take_append_length (l1 l2 : List Char) (n : ℕ) (h : l1.length = n) :
    (l1 ++ l2).take n = l1 := by
  subst h
  exact List.take_left l1 l2

theorem drop_append_length (l1 l2 : List Char) (n : ℕ) (h : l1.length = n) :
    (l1 ++ l2).drop n = l2 := by
  subst h
  exact List.drop_left l1 l2

set_option maxRecDepth 4000 in
theorem byteHex_cases :
    ∀ v : ℕ, v < 256 →
      ((byteHex v = ['1', 'b']) ↔ v = 27) ∧ ((byteHex v = ['1', 'c']) ↔ v = 28) ∧
      ((byteHex v = ['0', '0']) ↔ v = 0) ∧ ((byteHex v = ['0', '1']) ↔ v = 1) := by
  decide

/-- C8: splitSig normalizes a 65-byte signature whose recovery byte is 0
or 27 to `v = 27`, one whose recovery byte is 1 or 28 to `v = 28`, fails
with the bad-sig-v error (`InvalidSignatureError`) on every other recovery
byte, fails with the bad-sig-length error whenever the raw signature is
not 65 bytes, and returns `r` and `s` as the unchanged hex renderings of
the first and second 32-byte components. -/
theorem splitSig_spec :
    (∀ bs : List ℕ, bs.length ≠ 65 →
      splitSig ('0' :: 'x' :: bytesHex bs) = Except.error "bad sig length") ∧
    (∀ (front : List ℕ) (v : ℕ), front.length = 64 → v < 256 →
      ((v = 27 ∨ v = 0) →
        splitSig ('0' :: 'x' :: bytesHex (front ++ [v])) =
          Except.ok ⟨'0' :: 'x' :: bytesHex (front.take 32),
            '0' :: 'x' :: bytesHex (front.drop 32), 27⟩) ∧
      ((v = 28 ∨ v = 1) →
        splitSig ('0' :: 'x' :: bytesHex (front ++ [v])) =
          Except.ok ⟨'0' :: 'x' :: bytesHex (front.take 32),
            '0' :: 'x' :: bytesHex (front.drop 32), 28⟩) ∧
      (¬(v = 0 ∨ v = 1 ∨ v = 27 ∨ v = 28) →
        splitSig ('0' :: 'x' :: bytesHex (front ++ [v])) = Except.error "bad sig v")) := by
  have hdrop2 : ∀ l : List Char, ('0' :: 'x' :: l).drop 2 = l := fun _ => rfl
  constructor
  · intro bs hlen
    simp only [splitSig, hdrop2]
    rw [if_pos (by rw [bytesHex_length]; omega)]
  · intro front v hf hv
    have hA : (bytesHex (front.take 32)).length = 64 := by
      rw [bytesHex_length, List.length_take]
      omega
    have hB : (bytesHex (front.drop 32)).length = 64 := by
      rw [bytesHex_length, List.length_drop]
      omega
    have hsig1 : bytesHex (front ++ [v]) =
        bytesHex (front.take 32) ++ (bytesHex (front.drop 32) ++ byteHex v) := by
      conv_lhs => rw [← List.take_append_drop 32 front]
      rw [List.append_assoc, bytesHex_append, bytesHex_append]
      simp [bytesHex]
    have hlen130 : (bytesHex (front ++ [v])).length = 130 := by
      rw [bytesHex_length]
      simp [hf]
    have hvv : (bytesHex (front ++ [v])).drop 128 = byteHex v := by
      rw [hsig1, ← List.append_assoc]
      exact drop_append_length _ _ 128 (by rw [List.length_append, hA, hB])
    have htake : (bytesHex (front ++ [v])).take 64 = bytesHex (front.take 32) := by
      rw [hsig1]
      exact take_append_length _ _ 64 hA
    have hmid : ((bytesHex (front ++ [v])).drop 64).take 64 = bytesHex (front.drop 32) := by
      rw [hsig1, drop_append_length _ _ 64 hA]
      exact take_append_length _ _ 64 hB
    obtain ⟨h1b, h1c, h00, h01⟩ := byteHex_cases v hv
    refine ⟨?_, ?_, ?_⟩
    · rintro (rfl | rfl) <;>
        · simp only [splitSig, hdrop2, hvv, htake, hmid]
          rw [if_neg (by rw [hlen130]; omega), if_neg (by decide), if_pos (by decide)]
    · rintro (rfl | rfl) <;>
        · simp only [splitSig, hdrop2, hvv, htake, hmid]
          rw [if_neg (by rw [hlen130]; omega), if_neg (by decide), if_neg (by decide)]
    · intro hother
      simp only [splitSig, hdrop2, hvv, htake, hmid]
      rw [if_neg (by rw [hlen130]; omega), if_pos]
      refine ⟨?_, ?_, ?_, ?_⟩
      · intro h
        exact hother (Or.inr (Or.inr (Or.inr (h1c.mp h))))
      · intro h
        exact hother (Or.inr (Or.inr (Or.inl (h1b.mp h))))
      · intro h
        exact hother (Or.inl (h00.mp h))
      · intro h
        exact hother (Or.inr (Or.inl (h01.mp h)))

/-- Witness for C8 at a concrete 65-byte signature with recovery byte 0. -/
theorem splitSig_spec_witness :
    (List.replicate 64 (5 : ℕ)).length = 64 ∧
    splitSig ('0' :: 'x' :: bytesHex (List.replicate 64 5 ++ [0])) =
      Except.ok ⟨'0' :: 'x' :: bytesHex ((List.replicate 64 (5 : ℕ)).take 32),
        '0' :: 'x' :: bytesHex ((List.replicate 64 (5 : ℕ)).drop 32), 27⟩ :=
  ⟨by decide, (splitSig_spec.2 (List.replicate 64 5) 0 (by decide) (by decide)).1 (Or.inr rfl)⟩

/-! ## Claim C3: format lemmas for the rendering -/

theorem digitChar_facts :
    ∀ d : ℕ, d < 10 → digitChar d ≠ 'e' ∧ digitChar d ≠ '.' ∧ digitChar d ≠ '-' ∧
      (digitChar d = '0' ↔ d = 0) := by decide

theorem mem_expChars_e (e : ℤ) : 'e' ∈ expChars e := by
  rw [expChars]
  split <;> exact List.mem_cons_self _ _

theorem decBody_spec (z : ℕ) (sig : List ℕ) (hne : sig ≠ [])
    (hhead : ∀ d, sig.head? = some d → d ≠ 0)
    (hlast : ∀ d, sig.getLast? = some d → d ≠ 0)
    (hmem : ∀ d ∈ sig, d < 10) :
    decBody z sig ≠ [] ∧
    (∀ c, (decBody z sig).head? = some c →
      c ≠ '-' ∧ (c = '0' → (decBody z sig).take 2 = ['0', '.'])) ∧
    ('e' ∈ decBody z sig ↔
      ((z : ℤ) + sig.length - 9 ≤ -7 ∨ 21 ≤ (z : ℤ) + sig.length - 9)) ∧
    ('e' ∉ decBody z sig → '.' ∈ decBody z sig → (decBody z sig).getLast? ≠ some '0') := by
  have hbne : sig.reverse.map digitChar ≠ [] := by
    simp only [ne_eq, List.map_eq_nil_iff, List.reverse_eq_nil_iff]
    exact hne
  have hblen : (sig.reverse.map digitChar).length = sig.length := by
    rw [List.length_map, List.length_reverse]
  have hmemb : ∀ c ∈ sig.reverse.map digitChar, ∃ d, d ∈ sig ∧ d < 10 ∧ c = digitChar d := by
    intro c hc
    obtain ⟨d, hd, rfl⟩ := List.mem_map.mp hc
    rw [List.mem_reverse] at hd
    exact ⟨d, hd, hmem d hd, rfl⟩
  obtain ⟨g, hg⟩ : ∃ g, sig.getLast? = some g := by
    cases hgl : sig.getLast? with
    | none => exact absurd (List.getLast?_eq_none_iff.mp hgl) hne
    | some g => exact ⟨g, rfl⟩
  have hgmem : g ∈ sig := by
    obtain ⟨hne2, heq⟩ := List.mem_getLast?_eq_getLast (show g ∈ sig.getLast? from hg)
    rw [heq]
    exact List.getLast_mem hne2
  have hgne : g ≠ 0 := hlast g hg
  have hglt : g < 10 := hmem g hgmem
  have hBhead : (sig.reverse.map digitChar).head? = some (digitChar g) := by
    rw [List.head?_map, List.head?_reverse, hg]
    rfl
  obtain ⟨c0, brest, hb0⟩ := List.exists_cons_of_ne_nil hbne
  have hc0 : c0 = digitChar g := by
    rw [hb0, List.head?_cons, Option.some_inj] at hBhead
    exact hBhead
  have hc0ne0 : c0 ≠ '0' := by
    rw [hc0]
    intro h
    exact hgne ((digitChar_facts g hglt).2.2.2.mp h)
  have hc0neM : c0 ≠ '-' := by
    rw [hc0]
    exact (digitChar_facts g hglt).2.2.1
  have hd0 : ∃ d0, sig.head? = some d0 ∧ d0 ≠ 0 ∧ d0 < 10 := by
    obtain ⟨d0, stl, rfl⟩ := List.exists_cons_of_ne_nil hne
    exact ⟨d0, rfl, hhead d0 rfl, hmem d0 (List.mem_cons_self _ _)⟩
  obtain ⟨d0, hd0h, hd0ne, hd0lt⟩ := hd0
  have hBlast : (sig.reverse.map digitChar).getLast? = some (digitChar d0) := by
    rw [List.map_reverse, List.getLast?_reverse, List.head?_map, hd0h]
    rfl
  have hlastB : ∀ X : List Char,
      X.getLast? = (sig.reverse.map digitChar).getLast? → X.getLast? ≠ some '0' := by
    intro X hX
    rw [hX, hBlast]
    intro h
    exact hd0ne ((digitChar_facts d0 hd0lt).2.2.2.mp (Option.some_inj.mp h))
  have hnotE : ∀ c ∈ sig.reverse.map digitChar, c ≠ 'e' := by
    intro c hc
    obtain ⟨d, _, hdlt, rfl⟩ := hmemb c hc
    exact (digitChar_facts d hdlt).1
  have hnotDot : ∀ c ∈ sig.reverse.map digitChar, c ≠ '.' := by
    intro c hc
    obtain ⟨d, _, hdlt, rfl⟩ := hmemb c hc
    exact (digitChar_facts d hdlt).2.1
  by_cases hcond : ((z : ℤ) + sig.length - 9 ≤ -7 ∨ 21 ≤ (z : ℤ) + sig.length - 9)
  · have hform : decBody z sig =
        decExpMantissa (c0 :: brest) ++ expChars ((z : ℤ) + sig.length - 9) := by
      simp only [decBody]
      rw [if_pos hcond, hb0]
    have hmant : decExpMantissa (c0 :: brest) =
        c0 :: (if brest = [] then [] else '.' :: brest) := by
      rw [decExpMantissa]
      split <;> simp_all
    rw [hform, hmant]
    refine ⟨by simp, ?_, ?_, ?_⟩
    · intro c hc
      rw [List.cons_append, List.head?_cons, Option.some_inj] at hc
      subst hc
      exact ⟨hc0neM, fun h => absurd h hc0ne0⟩
    · exact ⟨fun _ => hcond, fun _ => List.mem_append_right _ (mem_expChars_e _)⟩
    · intro hnoE _
      exact absurd (List.mem_append_right _ (mem_expChars_e _)) hnoE
  · by_cases hz : 8 ≤ z
    · have hform : decBody z sig =
          (c0 :: brest) ++ List.replicate (z - 8) '0' := by
        simp only [decBody]
        rw [if_neg hcond, if_pos hz, hb0]
      rw [hform]
      refine ⟨by simp, ?_, ?_, ?_⟩
      · intro c hc
        rw [List.cons_append, List.head?_cons, Option.some_inj] at hc
        subst hc
        exact ⟨hc0neM, fun h => absurd h hc0ne0⟩
      · constructor
        · intro hcE
          rcases List.mem_append.mp hcE with h | h
          · exact absurd rfl (hnotE 'e' (hb0 ▸ h))
          · exact absurd (List.eq_of_mem_replicate h).symm (by decide)
        · intro h
          exact absurd h hcond
      · intro _ hdot
        rcases List.mem_append.mp hdot with h | h
        · exact absurd rfl (hnotDot '.' (hb0 ▸ h))
        · exact absurd (List.eq_of_mem_replicate h).symm (by decide)
    · by_cases hfl : 8 - z < sig.length
      · obtain ⟨k', hk'⟩ : ∃ k', sig.length - (8 - z) = k' + 1 :=
          ⟨sig.length - (8 - z) - 1, by omega⟩
        have hform : decBody z sig =
            (c0 :: brest).take (sig.length - (8 - z)) ++
              '.' :: (c0 :: brest).drop (sig.length - (8 - z)) := by
          simp only [decBody]
          rw [if_neg hcond, if_neg hz, if_pos hfl, hb0]
        have hdropne : (c0 :: brest).drop (sig.length - (8 - z)) ≠ [] := by
          intro h
          have hl := congrArg List.length h
          rw [List.length_drop] at hl
          have hlen2 : (c0 :: brest).length = sig.length := by
            rw [← hb0]
            exact hblen
          rw [hlen2] at hl
          simp only [List.length_nil] at hl
          omega
        rw [hform]
        refine ⟨?_, ?_, ?_, ?_⟩
        · intro h
          have := congrArg List.length h
          rw [List.length_append] at this
          simp at this
        · intro c hc
          rw [hk', List.take_succ_cons, List.cons_append, List.head?_cons,
            Option.some_inj] at hc
          subst hc
          exact ⟨hc0neM, fun h => absurd h hc0ne0⟩
        · constructor
          · intro hcE
            rcases List.mem_append.mp hcE with h | h
            · exact absurd rfl (hnotE 'e' (hb0 ▸ List.mem_of_mem_take h))
            · rcases List.mem_cons.mp h with h' | h'
              · exact absurd h'.symm (by decide)
              · exact absurd rfl (hnotE 'e' (hb0 ▸ List.mem_of_mem_drop h'))
          · intro h
            exact absurd h hcond
        · intro _ _
          apply hlastB
          rw [List.getLast?_append_of_ne_nil _ (by simp : ('.' :: (c0 :: brest).drop
            (sig.length - (8 - z)) : List Char) ≠ [])]
          have hsplit : ('.' :: (c0 :: brest).drop (sig.length - (8 - z)) : List Char) =
              ['.'] ++ (c0 :: brest).drop (sig.length - (8 - z)) := rfl
          rw [hsplit, List.getLast?_append_of_ne_nil _ hdropne, hb0]
          conv_rhs => rw [← List.take_append_drop (sig.length - (8 - z)) (c0 :: brest)]
          rw [List.getLast?_append_of_ne_nil _ hdropne]
      · have hform : decBody z sig =
            '0' :: '.' :: (List.replicate (8 - z - sig.length) '0' ++ (c0 :: brest)) := by
          simp only [decBody]
          rw [if_neg hcond, if_neg hz, if_neg hfl, hb0]
        rw [hform]
        have hreplbigs : (List.replicate (8 - z - sig.length) '0' ++ (c0 :: brest) :
            List Char) ≠ [] := by simp
        refine ⟨by simp, ?_, ?_, ?_⟩
        · intro c hc
          rw [List.head?_cons, Option.some_inj] at hc
          subst hc
          exact ⟨by decide, fun _ => rfl⟩
        · constructor
          · intro hcE
            rcases List.mem_cons.mp hcE with h | h
            · exact absurd h.symm (by decide)
            rcases List.mem_cons.mp h with h' | h'
            · exact absurd h'.symm (by decide)
            rcases List.mem_append.mp h' with h2 | h2
            · exact absurd (List.eq_of_mem_replicate h2).symm (by decide)
            · exact absurd rfl (hnotE 'e' (hb0 ▸ h2))
          · intro h
            exact absurd h hcond
        · intro _ _
          apply hlastB
          have hform2 : ('0' :: '.' :: (List.replicate (8 - z - sig.length) '0' ++
              (c0 :: brest)) : List Char) =
              ['0', '.'] ++ (List.replicate (8 - z - sig.length) '0' ++ (c0 :: brest)) := rfl
          rw [hform2, List.getLast?_append_of_ne_nil _ hreplbigs,
            List.getLast?_append_of_ne_nil _ (by simp : (c0 :: brest : List Char) ≠ []), hb0]

theorem stripZeros_digits_facts (a : ℕ) (ha : a ≠ 0) :
    (stripZeros (natDigits 10 a)).2 ≠ [] ∧
    (∀ d, (stripZeros (natDigits 10 a)).2.head? = some d → d ≠ 0) ∧
    (∀ d, (stripZeros (natDigits 10 a)).2.getLast? = some d → d ≠ 0) ∧
    (∀ d ∈ (stripZeros (natDigits 10 a)).2, d < 10) ∧
    (((((stripZeros (natDigits 10 a)).1 : ℤ) + (stripZeros (natDigits 10 a)).2.length - 9 ≤ -7) ∨
      (21 ≤ ((stripZeros (natDigits 10 a)).1 : ℤ) + (stripZeros (natDigits 10 a)).2.length - 9)) ↔
      (a < 100 ∨ 10 ^ 29 ≤ a)) := by
  have hdig : natDigits 10 a = Nat.digits 10 a := natDigits_eq 10 a (by norm_num)
  have hrep : Nat.digits 10 a =
      List.replicate (stripZeros (natDigits 10 a)).1 0 ++ (stripZeros (natDigits 10 a)).2 := by
    rw [← hdig]
    exact stripZeros_spec _
  have hSsplit : a = 10 ^ (stripZeros (natDigits 10 a)).1 *
      Nat.ofDigits 10 (stripZeros (natDigits 10 a)).2 := by
    conv_lhs => rw [← Nat.ofDigits_digits 10 a]
    rw [hrep, Nat.ofDigits_append, ofDigits_replicate_zero, List.length_replicate]
    ring
  have hsne : (stripZeros (natDigits 10 a)).2 ≠ [] := by
    intro h
    rw [h] at hSsplit
    simp [Nat.ofDigits_nil] at hSsplit
    exact ha hSsplit
  have hdigne : Nat.digits 10 a ≠ [] := Nat.digits_ne_nil_iff_ne_zero.mpr ha
  have hgl : (stripZeros (natDigits 10 a)).2.getLast? = (Nat.digits 10 a).getLast? := by
    rw [hrep, List.getLast?_append_of_ne_nil _ hsne]
  have hlast : ∀ d, (stripZeros (natDigits 10 a)).2.getLast? = some d → d ≠ 0 := by
    intro d hd
    rw [hgl, List.getLast?_eq_getLast _ hdigne, Option.some_inj] at hd
    rw [← hd]
    exact Nat.getLast_digit_ne_zero 10 ha
  have hmem : ∀ d ∈ (stripZeros (natDigits 10 a)).2, d < 10 := by
    intro d hd
    have : d ∈ Nat.digits 10 a := by
      rw [hrep]
      exact List.mem_append_right _ hd
    exact Nat.digits_lt_base (by norm_num) this
  have hS0 : Nat.ofDigits 10 (stripZeros (natDigits 10 a)).2 ≠ 0 := by
    intro h
    rw [h, Nat.mul_zero] at hSsplit
    exact ha hSsplit
  have hdigS : Nat.digits 10 (Nat.ofDigits 10 (stripZeros (natDigits 10 a)).2) =
      (stripZeros (natDigits 10 a)).2 := by
    refine Nat.digits_ofDigits 10 (by norm_num) _ hmem ?_
    intro h
    exact hlast _ (List.getLast?_eq_getLast _ h)
  have hSub : Nat.ofDigits 10 (stripZeros (natDigits 10 a)).2 <
      10 ^ (stripZeros (natDigits 10 a)).2.length := by
    have h := Nat.lt_base_pow_length_digits (b := 10)
      (m := Nat.ofDigits 10 (stripZeros (natDigits 10 a)).2) (by norm_num)
    rw [hdigS] at h
    exact h
  have hSlb : 10 ^ (stripZeros (natDigits 10 a)).2.length ≤
      10 * Nat.ofDigits 10 (stripZeros (natDigits 10 a)).2 := by
    have h := Nat.base_pow_length_digits_le 10
      (Nat.ofDigits 10 (stripZeros (natDigits 10 a)).2) (by norm_num) hS0
    rw [hdigS] at h
    exact h
  have haub : a < 10 ^ ((stripZeros (natDigits 10 a)).1 + (stripZeros (natDigits 10 a)).2.length) := by
    conv_lhs => rw [hSsplit]
    rw [pow_add]
    exact (mul_lt_mul_left (pow_pos (by norm_num : (0 : ℕ) < 10) _)).mpr hSub
  have halb : 10 ^ ((stripZeros (natDigits 10 a)).1 + (stripZeros (natDigits 10 a)).2.length) ≤
      10 * a := by
    conv_rhs => rw [hSsplit]
    rw [pow_add]
    calc 10 ^ (stripZeros (natDigits 10 a)).1 * 10 ^ (stripZeros (natDigits 10 a)).2.length ≤
        10 ^ (stripZeros (natDigits 10 a)).1 *
          (10 * Nat.ofDigits 10 (stripZeros (natDigits 10 a)).2) :=
          Nat.mul_le_mul_left _ hSlb
      _ = 10 * (10 ^ (stripZeros (natDigits 10 a)).1 *
          Nat.ofDigits 10 (stripZeros (natDigits 10 a)).2) := by ring
  have key1 : (stripZeros (natDigits 10 a)).1 + (stripZeros (natDigits 10 a)).2.length ≤ 2 ↔
      a < 100 := by
    constructor
    · intro hm
      have h2 : (10 : ℕ) ^ ((stripZeros (natDigits 10 a)).1 +
          (stripZeros (natDigits 10 a)).2.length) ≤ 10 ^ 2 :=
        Nat.pow_le_pow_right (by norm_num) hm
      have := lt_of_lt_of_le haub h2
      norm_num at this
      exact this
    · intro hlt
      by_contra hm
      push_neg at hm
      have h3 : (10 : ℕ) ^ 3 ≤ 10 ^ ((stripZeros (natDigits 10 a)).1 +
          (stripZeros (natDigits 10 a)).2.length) :=
        Nat.pow_le_pow_right (by norm_num) (by omega)
      have := le_trans h3 halb
      norm_num at this
      omega
  have key2 : 30 ≤ (stripZeros (natDigits 10 a)).1 + (stripZeros (natDigits 10 a)).2.length ↔
      10 ^ 29 ≤ a := by
    constructor
    · intro hm
      have h30 : (10 : ℕ) ^ 30 ≤ 10 ^ ((stripZeros (natDigits 10 a)).1 +
          (stripZeros (natDigits 10 a)).2.length) :=
        Nat.pow_le_pow_right (by norm_num) hm
      have h := le_trans h30 halb
      have h10 : (10 : ℕ) ^ 30 = 10 * 10 ^ 29 := by norm_num
      omega
    · intro hle
      by_contra hm
      push_neg at hm
      have h29 : (10 : ℕ) ^ ((stripZeros (natDigits 10 a)).1 +
          (stripZeros (natDigits 10 a)).2.length) ≤ 10 ^ 29 :=
        Nat.pow_le_pow_right (by norm_num) (by omega)
      have := lt_of_lt_of_le haub h29
      omega
  refine ⟨hsne, stripZeros_head _, hlast, hmem, ?_⟩
  constructor
  · rintro (h | h)
    · exact Or.inl (key1.mp (by omega))
    · exact Or.inr (key2.mp (by omega))
  · rintro (h | h)
    · exact Or.inl (by have := key1.mpr h; omega)
    · exact Or.inr (by have := key2.mpr h; omega)

theorem decimalChars_spec (n : ℤ) :
    (n = 0 → decimalChars n = ['0']) ∧
    ((decimalChars n).head? = some '-' ↔ n < 0) ∧
    ('e' ∈ decimalChars n ↔ (n ≠ 0 ∧ (n.natAbs < 100 ∨ 10 ^ 29 ≤ n.natAbs))) ∧
    ('e' ∉ decimalChars n → '.' ∈ decimalChars n → (decimalChars n).getLast? ≠ some '0') ∧
    (∀ c, (stripSign (decimalChars n)).head? = some c → c = '0' →
      stripSign (decimalChars n) = ['0'] ∨ (stripSign (decimalChars n)).take 2 = ['0', '.']) := by
  by_cases h0 : n = 0
  · subst h0
    have hdc : decimalChars 0 = ['0'] := rfl
    refine ⟨fun _ => hdc, by decide, by decide, by decide, ?_⟩
    intro c hc h0c
    left
    rfl
  · obtain ⟨hsne, hshead, hslast, hsmem, hiff⟩ :=
      stripZeros_digits_facts n.natAbs (Int.natAbs_ne_zero.mpr h0)
    obtain ⟨hbne, hheadP, hEiff, htrail⟩ :=
      decBody_spec (stripZeros (natDigits 10 n.natAbs)).1
        (stripZeros (natDigits 10 n.natAbs)).2 hsne hshead hslast hsmem
    by_cases hneg : n < 0
    · have hdc : decimalChars n = '-' :: decBody (stripZeros (natDigits 10 n.natAbs)).1
          (stripZeros (natDigits 10 n.natAbs)).2 := by
        rw [decimalChars, if_neg h0, if_pos hneg]
      rw [hdc]
      have hconsE : 'e' ∈ ('-' :: decBody (stripZeros (natDigits 10 n.natAbs)).1
          (stripZeros (natDigits 10 n.natAbs)).2) ↔
          'e' ∈ decBody (stripZeros (natDigits 10 n.natAbs)).1
            (stripZeros (natDigits 10 n.natAbs)).2 := by
        rw [List.mem_cons]
        simp only [or_iff_right_iff_imp]
        intro h
        exact absurd h (by decide)
      refine ⟨fun h => absurd h h0, by simp [hneg], ?_, ?_, ?_⟩
      · rw [hconsE, hEiff, hiff]
        simp [h0]
      · intro hnoE hdot
        rw [hconsE] at hnoE
        have hdot2 : '.' ∈ decBody (stripZeros (natDigits 10 n.natAbs)).1
            (stripZeros (natDigits 10 n.natAbs)).2 := by
          rcases List.mem_cons.mp hdot with h | h
          · exact absurd h.symm (by decide)
          · exact h
        have hcons : ('-' :: decBody (stripZeros (natDigits 10 n.natAbs)).1
            (stripZeros (natDigits 10 n.natAbs)).2 : List Char) =
            ['-'] ++ decBody (stripZeros (natDigits 10 n.natAbs)).1
              (stripZeros (natDigits 10 n.natAbs)).2 := rfl
        rw [hcons, List.getLast?_append_of_ne_nil _ hbne]
        exact htrail hnoE hdot2
      · have hstrip : stripSign ('-' :: decBody (stripZeros (natDigits 10 n.natAbs)).1
            (stripZeros (natDigits 10 n.natAbs)).2) =
            decBody (stripZeros (natDigits 10 n.natAbs)).1
              (stripZeros (natDigits 10 n.natAbs)).2 := by
          simp [stripSign]
        rw [hstrip]
        intro c hc h0c
        right
        exact (hheadP c hc).2 h0c
    · have hdc : decimalChars n = decBody (stripZeros (natDigits 10 n.natAbs)).1
          (stripZeros (natDigits 10 n.natAbs)).2 := by
        rw [decimalChars, if_neg h0, if_neg hneg]
      rw [hdc]
      have hheadne : (decBody (stripZeros (natDigits 10 n.natAbs)).1
          (stripZeros (natDigits 10 n.natAbs)).2).head? ≠ some '-' := by
        cases hh : (decBody (stripZeros (natDigits 10 n.natAbs)).1
            (stripZeros (natDigits 10 n.natAbs)).2).head? with
        | none => exact fun h => nomatch h
        | some c =>
          intro h
          exact (hheadP c hh).1 (Option.some_inj.mp h)
      refine ⟨fun h => absurd h h0, ?_, ?_, htrail, ?_⟩
      · constructor
        · intro h
          exact absurd h hheadne
        · intro h
          exact absurd h hneg
      · rw [hEiff, hiff]
        simp [h0]
      · have hstrip : stripSign (decBody (stripZeros (natDigits 10 n.natAbs)).1
            (stripZeros (natDigits 10 n.natAbs)).2) =
            decBody (stripZeros (natDigits 10 n.natAbs)).1
              (stripZeros (natDigits 10 n.natAbs)).2 := by
          rw [stripSign, if_neg hheadne]
        rw [hstrip]
        intro c hc h0c
        right
        exact (hheadP c hc).2 h0c

/-- C3 counterexample: floatToWire is claimed to never use exponent
notation, but on the representable input `1e-7` it returns the string
`1e-7` (decimal.js exponential notation). -/
theorem floatToWire_emits_exponential :
    floatToWire (1 / 10000000) = Except.ok "1e-7" ∧ 'e' ∈ "1e-7".data :=
  ⟨floatToWire_small_tick, by decide⟩

/-- C3 (amended): every string returned by floatToWire is the decimal.js
canonical rendering of the rounded value: `0` when the rounded value is
zero (hence for `-0` inputs), a leading minus sign exactly when the
rounded value is negative, no trailing fractional zeros and no redundant
leading zeros in plain notation, and exponential notation exactly when the
rounded value is nonzero with magnitude below `1e-6` or at least `1e21`. -/
theorem floatToWire_format_spec (x : ℚ) (s : String) (h : floatToWire x = Except.ok s) :
    (wireRound x = 0 → s.data = ['0']) ∧
    (s.data.head? = some '-' ↔ wireRound x < 0) ∧
    ('e' ∈ s.data ↔
      (wireRound x ≠ 0 ∧
        (|wireRound x| < 1 / 1000000 ∨ 1000000000000000000000 ≤ |wireRound x|))) ∧
    ('e' ∉ s.data → '.' ∈ s.data → s.data.getLast? ≠ some '0') ∧
    (∀ c, (stripSign s.data).head? = some c → c = '0' →
      stripSign s.data = ['0'] ∨ (stripSign s.data).take 2 = ['0', '.']) := by
  have hchars := floatToWire_ok_chars x s h
  obtain ⟨h1, h2, h3, h4, h5⟩ := decimalChars_spec (wireRoundInt x)
  have hzero : wireRound x = 0 ↔ wireRoundInt x = 0 := by
    rw [wireRound, div_eq_zero_iff]
    norm_num
  have hlt : wireRound x < 0 ↔ wireRoundInt x < 0 := by
    rw [wireRound, div_lt_iff (by norm_num : (0 : ℚ) < 100000000), zero_mul]
    exact Int.cast_lt_zero
  have habs : |wireRound x| = ((wireRoundInt x).natAbs : ℚ) / 100000000 := by
    rw [wireRound, abs_div, abs_of_pos (by norm_num : (0 : ℚ) < 100000000)]
    congr 1
    rw [Int.cast_natAbs, Int.cast_abs]
  have hlow : |wireRound x| < 1 / 1000000 ↔ (wireRoundInt x).natAbs < 100 := by
    rw [habs, div_lt_div_iff (by norm_num) (by norm_num), one_mul]
    constructor
    · intro hq
      by_contra hA
      push_neg at hA
      have h100 : (100 : ℚ) ≤ ((wireRoundInt x).natAbs : ℚ) := by exact_mod_cast hA
      nlinarith
    · intro hA
      have h100 : ((wireRoundInt x).natAbs : ℚ) < 100 := by exact_mod_cast hA
      nlinarith
  have hhigh : 1000000000000000000000 ≤ |wireRound x| ↔ 10 ^ 29 ≤ (wireRoundInt x).natAbs := by
    rw [habs, le_div_iff (by norm_num : (0 : ℚ) < 100000000)]
    constructor
    · intro hq
      have hA : (100000000000000000000000000000 : ℚ) ≤ ((wireRoundInt x).natAbs : ℚ) := by
        nlinarith
      exact_mod_cast hA
    · intro hA
      have hA2 : (100000000000000000000000000000 : ℚ) ≤ ((wireRoundInt x).natAbs : ℚ) := by
        exact_mod_cast hA
      nlinarith
  rw [hchars]
  refine ⟨fun hz => h1 (hzero.mp hz), h2.trans hlt.symm, ?_, h4, h5⟩
  rw [h3]
  constructor
  · rintro ⟨hn0, hc⟩
    exact ⟨fun hr => hn0 (hzero.mp hr), hc.imp hlow.mpr hhigh.mpr⟩
  · rintro ⟨hr0, hc⟩
    exact ⟨fun hn => hr0 (hzero.mpr hn), hc.imp hlow.mp hhigh.mp⟩

/-- Witness for C3 (amended) at the concrete input 90000. -/
theorem floatToWire_format_spec_witness :
    floatToWire 90000 = Except.ok "90000" ∧
    ("90000".data.head? = some '-' ↔ wireRound 90000 < 0) :=
  ⟨floatToWire_90000, (floatToWire_format_spec 90000 "90000" floatToWire_90000).2.1⟩
